import Mathlib

/-!
Verification of the fsgc session-file garbage collector (fsgc.go).

The first part embeds the pure content of `Collect`: a directory listing is a
list of entries (name, kind, modification time) together with an optional
open/Readdir failure; the loop body of `Collect` becomes the recursive
function `sweep`, and `collect` wraps it with the error handling of the Go
method.  Deletion failures of `os.Remove` are modelled by an oracle
`removeOk : String → Bool` saying which removals succeed.

The second part is a small operational model of the start/stop lifecycle:
a world holds the `GC` struct, the set of tickers ever created (Go's
`time.NewTicker` / `Ticker.Stop`; note `Ticker.Stop` does NOT close the
ticker's channel), the background goroutines ranging over those channels,
and a log of the sweeps that ran.  Events are the public operations plus
tick delivery and a goroutine observing a closed channel and exiting.
-/

namespace Fsgc

/-- Kind of a directory entry as reported by `Readdir` (which uses `Lstat`,
so a symbolic link is reported as a symlink, never as what it points to). -/
inductive FileKind
  | dir
  | regular
  | symlink
  | other
deriving DecidableEq, Repr

/-- The fields of `os.FileInfo` that `Collect` reads: `Name()`, `IsDir()`
(encoded via `kind`) and `ModTime()` (nanoseconds, as an integer). -/
structure FileInfo where
  name : String
  kind : FileKind
  modTime : Int
deriving DecidableEq, Repr

/-- Go's `fi.IsDir()`: true exactly when the entry is a directory. -/
def FileInfo.isDir (fi : FileInfo) : Bool :=
  fi.kind = FileKind.dir

/-- The `GC` struct of fsgc.go.  The mutex only serialises access and has no
pure content; `ticker` holds the identifier of the live ticker (`nil` = not
running).  Durations are `time.Duration`, i.e. integer nanoseconds. -/
structure GC where
  dir : String
  maxAge : Int
  interval : Int
  ticker : Option Nat
deriving DecidableEq, Repr

/-- One hour as a `time.Duration` (nanoseconds). -/
def Hour : Int := 3600 * 1000000000

/-- `DefaultMaxAge = 7 * 24 * time.Hour`. -/
def DefaultMaxAge : Int := 7 * 24 * Hour

/-- `DefaultInterval = 1 * time.Hour`. -/
def DefaultInterval : Int := 1 * Hour

/-- `New(dir)`: a struct literal, no I/O, stopped state, default durations. -/
def New (dir : String) : GC :=
  { dir := dir, maxAge := DefaultMaxAge, interval := DefaultInterval, ticker := none }

/-- The `MaxAge` setter (returns the same GC for chaining). -/
def GC.MaxAge (gc : GC) (dur : Int) : GC :=
  { gc with maxAge := dur }

/-- The `Interval` setter (returns the same GC for chaining). -/
def GC.Interval (gc : GC) (dur : Int) : GC :=
  { gc with interval := dur }

/-- Go's `strings.HasPrefix(s, pre)`: the characters of `pre` are an initial
segment of the characters of `s` (byte-by-byte in Go; the prefix used here is
ASCII, so characters coincide with bytes). -/
def stringHasPre (pre s : String) : Bool :=
  List.isPrefixOf pre.data s.data

/-- Errors `Collect` can return: `os.Open` failing or `Readdir` failing. -/
inductive DirError
  | openFailed
  | readdirFailed
deriving DecidableEq, Repr

/-- The target directory as `Collect` sees it: the entries `Readdir` would
return, and an optional failure of the open/list phase. -/
structure Dir where
  entries : List FileInfo
  listErr : Option DirError
deriving DecidableEq, Repr

/-- The per-entry eligibility test of the loop in `Collect`: the entry is not
a directory, its name starts with `session_`, and `now.Sub(fi.ModTime()) >
gc.maxAge`. -/
def eligible (maxAge now : Int) (fi : FileInfo) : Bool :=
  !fi.isDir && stringHasPre "session_" fi.name && decide (maxAge < now - fi.modTime)

/-- The `for _, fi := range fis` loop of `Collect`: returns the entries still
on disk afterwards and the names passed to `os.Remove` (in listing order).
`removeOk` tells which removals succeed; failed removals are ignored. -/
def sweep (maxAge now : Int) (removeOk : String → Bool) :
    List FileInfo → List FileInfo × List String
  | [] => ([], [])
  | fi :: rest =>
    let r := sweep maxAge now removeOk rest
    if fi.isDir || !(stringHasPre "session_" fi.name) then
      (fi :: r.1, r.2)
    else if maxAge < now - fi.modTime then
      ((if removeOk fi.name then r.1 else fi :: r.1), fi.name :: r.2)
    else
      (fi :: r.1, r.2)

/-- Everything `Collect` produces: its return value, the directory
afterwards, the removal attempts made, and the `GC` struct afterwards
(the method writes no field, so `gcAfter` is the receiver unchanged). -/
structure CollectResult where
  err : Option DirError
  fsAfter : Dir
  attempted : List String
  gcAfter : GC
deriving DecidableEq, Repr

/-- `Collect` (fsgc.go): on an open/Readdir failure return that error at once
(no entry is touched); otherwise capture one timestamp `now`, run the loop
over every entry, and return nil regardless of individual removal
outcomes. -/
def collect (gc : GC) (d : Dir) (now : Int) (removeOk : String → Bool) : CollectResult :=
  match d.listErr with
  | some e => { err := some e, fsAfter := d, attempted := [], gcAfter := gc }
  | none =>
    let r := sweep gc.maxAge now removeOk d.entries
    { err := none
      fsAfter := { entries := r.1, listErr := none }
      attempted := r.2
      gcAfter := gc }

/-- A sweep recorded in the lifecycle model: the `maxAge` the sweep read from
the struct, and the ticker that triggered it (`none` for a manual call). -/
structure Sweep where
  usedMaxAge : Int
  fromTick : Option Nat
deriving DecidableEq, Repr

/-- A world of the lifecycle model.  Tickers and goroutines ever created are
indexed by `Nat`; indices below `nextTid` (resp. `nextGid`) are allocated.
`tClosed i` models whether ticker `i`'s channel has been closed — Go's
`Ticker.Stop` never closes it, so no event sets this.  `gTid g` is the ticker
whose channel goroutine `g` ranges over, and `gDone g` whether that goroutine
has exited its `for range` loop (possible only on a closed channel). -/
structure World where
  gc : GC
  fs : Dir
  nextTid : Nat
  tPeriod : Nat → Int
  tActive : Nat → Bool
  tClosed : Nat → Bool
  nextGid : Nat
  gTid : Nat → Nat
  gDone : Nat → Bool
  log : List Sweep

/-- Events of the lifecycle model: the public operations, delivery of a tick
from a ticker (carrying the external state a sweep consumes), and a goroutine
attempting to exit its range loop (possible only if its channel is closed). -/
inductive Event
  | start
  | stop
  | setMaxAge (d : Int)
  | setInterval (d : Int)
  | tick (tid : Nat) (now : Int) (removeOk : String → Bool)
  | collectCall (now : Int) (removeOk : String → Bool)
  | taskExit (gid : Nat)

/-- One step of the lifecycle model, mirroring fsgc.go:
`Start` returns at once if `gc.ticker != nil`, else creates a ticker with the
current `interval` and launches a goroutine ranging over its channel;
`Stop` returns at once if not running, else calls `Ticker.Stop` (delivery
ends, the channel is NOT closed) and clears the handle;
a tick is delivered only by an active ticker and runs `gc.Collect()`
discarding the error; `Collect` runs the sweep directly; a goroutine can exit
its `for range` loop only when its channel is closed. -/
def step (w : World) : Event → World
  | Event.start =>
    match w.gc.ticker with
    | some _ => w
    | none =>
      { w with
        gc := { w.gc with ticker := some w.nextTid }
        nextTid := w.nextTid + 1
        tPeriod := fun i => if i = w.nextTid then w.gc.interval else w.tPeriod i
        tActive := fun i => if i = w.nextTid then true else w.tActive i
        nextGid := w.nextGid + 1
        gTid := fun g => if g = w.nextGid then w.nextTid else w.gTid g }
  | Event.stop =>
    match w.gc.ticker with
    | none => w
    | some tid =>
      { w with
        gc := { w.gc with ticker := none }
        tActive := fun i => if i = tid then false else w.tActive i }
  | Event.setMaxAge d => { w with gc := w.gc.MaxAge d }
  | Event.setInterval d => { w with gc := w.gc.Interval d }
  | Event.tick tid now removeOk =>
    if w.tActive tid then
      let r := collect w.gc w.fs now removeOk
      { w with
        gc := r.gcAfter
        fs := r.fsAfter
        log := { usedMaxAge := w.gc.maxAge, fromTick := some tid } :: w.log }
    else w
  | Event.collectCall now removeOk =>
    let r := collect w.gc w.fs now removeOk
    { w with
      gc := r.gcAfter
      fs := r.fsAfter
      log := { usedMaxAge := w.gc.maxAge, fromTick := none } :: w.log }
  | Event.taskExit gid =>
    if gid < w.nextGid && w.tClosed (w.gTid gid) then
      { w with gDone := fun g => if g = gid then true else w.gDone g }
    else w

/-- Run a list of events from a world. -/
def run (w : World) : List Event → World
  | [] => w
  | e :: es => run (step w e) es

/-- The world right after `New(dir)` on an (initially empty) directory:
no tickers, no goroutines, nothing logged. -/
def init (dir : String) : World :=
  { gc := New dir
    fs := { entries := [], listErr := none }
    nextTid := 0
    tPeriod := fun _ => 0
    tActive := fun _ => false
    tClosed := fun _ => false
    nextGid := 0
    gTid := fun _ => 0
    gDone := fun _ => false
    log := [] }

/-- The schedule-handle invariant: if the handle is set it names an allocated
ticker and exactly that ticker is active; if it is clear no ticker is
active. -/
def handleInv (w : World) : Prop :=
  match w.gc.ticker with
  | some tid => tid < w.nextTid ∧ ∀ i, w.tActive i = true ↔ i = tid
  | none => ∀ i, w.tActive i = false

/-- No ticker channel was ever closed (nothing in fsgc.go closes one). -/
def noClosed (w : World) : Prop :=
  ∀ i, w.tClosed i = false

/-- No background goroutine has exited its range loop. -/
def allAlive (w : World) : Prop :=
  ∀ g, w.gDone g = false

/-- Number of sweeps in the log triggered by ticker `tid`. -/
def sweepsFrom (tid : Nat) (log : List Sweep) : Nat :=
  log.countP (fun s => s.fromTick == some tid)

/-- The removal attempts of the sweep loop are exactly the eligible entries,
in listing order. -/
theorem sweep_snd (maxAge now : Int) (ok : String → Bool) (l : List FileInfo) :
    (sweep maxAge now ok l).2 = (l.filter (eligible maxAge now)).map FileInfo.name := by
  induction l with
  | nil => rfl
  | cons fi rest ih =>
    by_cases hd : fi.isDir = true
    · simp [sweep, eligible, hd, ih]
    · by_cases hp : stringHasPre "session_" fi.name = true
      · by_cases ha : maxAge < now - fi.modTime
        · simp [sweep, eligible, hd, hp, ha, ih]
        · simp [sweep, eligible, hd, hp, ha, ih]
      · simp [sweep, eligible, hd, hp, ih]

/-- The entries surviving the sweep loop are exactly those that are not
eligible or whose removal failed. -/
theorem sweep_fst (maxAge now : Int) (ok : String → Bool) (l : List FileInfo) :
    (sweep maxAge now ok l).1 =
      l.filter (fun fi => !(eligible maxAge now fi && ok fi.name)) := by
  induction l with
  | nil => rfl
  | cons fi rest ih =>
    by_cases hd : fi.isDir = true
    · simp [sweep, eligible, hd, ih]
    · by_cases hp : stringHasPre "session_" fi.name = true
      · by_cases ha : maxAge < now - fi.modTime
        · by_cases ho : ok fi.name = true
          · simp [sweep, eligible, hd, hp, ha, ho, ih]
          · simp [sweep, eligible, hd, hp, ha, ho, ih]
        · simp [sweep, eligible, hd, hp, ha, ih]
      · simp [sweep, eligible, hd, hp, ih]

/-- `Collect` writes no field of the receiver struct. -/
theorem collect_gcAfter (gc : GC) (d : Dir) (now : Int) (ok : String → Bool) :
    (collect gc d now ok).gcAfter = gc := by
  unfold collect
  cases d.listErr <;> rfl

/-- `Collect` returns exactly the open/Readdir error of the directory. -/
theorem collect_err (gc : GC) (d : Dir) (now : Int) (ok : String → Bool) :
    (collect gc d now ok).err = d.listErr := by
  unfold collect
  cases d.listErr <;> rfl

/-- Shape of `step` on `stop` when the collector is running. -/
theorem step_stop_of_some (w : World) (tid : Nat) (h : w.gc.ticker = some tid) :
    step w Event.stop = { w with
      gc := { w.gc with ticker := none }
      tActive := fun i => if i = tid then false else w.tActive i } := by
  unfold step
  rw [h]

/-- Shape of `step` on `start` when the collector is stopped. -/
theorem step_start_of_none (w : World) (h : w.gc.ticker = none) :
    step w Event.start = { w with
      gc := { w.gc with ticker := some w.nextTid }
      nextTid := w.nextTid + 1
      tPeriod := fun i => if i = w.nextTid then w.gc.interval else w.tPeriod i
      tActive := fun i => if i = w.nextTid then true else w.tActive i
      nextGid := w.nextGid + 1
      gTid := fun g => if g = w.nextGid then w.nextTid else w.gTid g } := by
  unfold step
  rw [h]

/-- Shape of `step` on a tick from an active ticker. -/
theorem step_tick_of_active (w : World) (tid : Nat) (now : Int)
    (removeOk : String → Bool) (h : w.tActive tid = true) :
    step w (Event.tick tid now removeOk) = { w with
      gc := (collect w.gc w.fs now removeOk).gcAfter
      fs := (collect w.gc w.fs now removeOk).fsAfter
      log := { usedMaxAge := w.gc.maxAge, fromTick := some tid } :: w.log } := by
  simp only [step]
  rw [if_pos h]

/-- `handleInv` is preserved by every event. -/
theorem handleInv_step (w : World) (e : Event) (h : handleInv w) : handleInv (step w e) := by
  cases e with
  | start =>
    cases ht : w.gc.ticker with
    | some tid => simpa [step, ht] using h
    | none =>
      simp only [handleInv, ht] at h
      simp only [step, ht, handleInv]
      refine ⟨by omega, fun i => ?_⟩
      by_cases hi : i = w.nextTid <;> simp [hi, h i]
  | stop =>
    cases ht : w.gc.ticker with
    | none => simpa [step, ht] using h
    | some tid =>
      simp only [handleInv, ht] at h
      simp only [step, ht, handleInv]
      intro i
      by_cases hi : i = tid
      · simp [hi]
      · simp only [if_neg hi]
        cases hti : w.tActive i
        · rfl
        · exact absurd ((h.2 i).mp hti) hi
  | setMaxAge d =>
    cases ht : w.gc.ticker <;> simp_all [handleInv, step, GC.MaxAge, ht]
  | setInterval d =>
    cases ht : w.gc.ticker <;> simp_all [handleInv, step, GC.Interval, ht]
  | tick tid now removeOk =>
    by_cases ha : w.tActive tid = true
    · cases ht : w.gc.ticker <;>
        simp_all [handleInv, step, collect_gcAfter, ht, ha]
    · simpa [step, ha] using h
  | collectCall now removeOk =>
    cases ht : w.gc.ticker <;>
      simp_all [handleInv, step, collect_gcAfter, ht]
  | taskExit gid =>
    by_cases hc : (gid < w.nextGid && w.tClosed (w.gTid gid)) = true
    · cases ht : w.gc.ticker <;> simp_all [handleInv, step, hc, ht]
    · simpa [step, hc] using h

/-- `handleInv` is preserved by any event sequence. -/
theorem handleInv_run (w : World) (evs : List Event) (h : handleInv w) :
    handleInv (run w evs) := by
  induction evs generalizing w with
  | nil => exact h
  | cons e es ih => exact ih (step w e) (handleInv_step w e h)

/-- No event ever closes a ticker channel, and hence (since a goroutine can
exit its range loop only on a closed channel) no goroutine ever exits. -/
theorem sane_step (w : World) (e : Event) (hc : noClosed w) (ha : allAlive w) :
    noClosed (step w e) ∧ allAlive (step w e) := by
  cases e with
  | start =>
    cases ht : w.gc.ticker <;> simp_all [noClosed, allAlive, step, ht]
  | stop =>
    cases ht : w.gc.ticker <;> simp_all [noClosed, allAlive, step, ht]
  | setMaxAge d => exact ⟨hc, ha⟩
  | setInterval d => exact ⟨hc, ha⟩
  | tick tid now removeOk =>
    by_cases hact : w.tActive tid = true <;> simp_all [noClosed, allAlive, step]
  | collectCall now removeOk => exact ⟨hc, ha⟩
  | taskExit gid =>
    have : (gid < w.nextGid && w.tClosed (w.gTid gid)) = false := by
      simp [hc (w.gTid gid)]
    simpa [step, this] using ⟨hc, ha⟩

/-- Over any event sequence, no channel closes and no goroutine exits. -/
theorem sane_run (w : World) (evs : List Event) (hc : noClosed w) (ha : allAlive w) :
    noClosed (run w evs) ∧ allAlive (run w evs) := by
  induction evs generalizing w with
  | nil => exact ⟨hc, ha⟩
  | cons e es ih =>
    exact ih (step w e) (sane_step w e hc ha).1 (sane_step w e hc ha).2

/-- A deactivated (allocated) ticker stays deactivated and triggers no
further sweeps, whatever happens next. -/
theorem inactive_step (w : World) (tid : Nat) (e : Event)
    (hb : tid < w.nextTid) (hia : w.tActive tid = false) :
    tid < (step w e).nextTid ∧ (step w e).tActive tid = false ∧
      sweepsFrom tid (step w e).log = sweepsFrom tid w.log := by
  cases e with
  | start =>
    cases ht : w.gc.ticker with
    | some t0 => simp [step, ht, hb, hia]
    | none =>
      have hne : tid ≠ w.nextTid := by omega
      simp [step, ht, hne, hia]
      omega
  | stop =>
    cases ht : w.gc.ticker with
    | none => simp [step, ht, hb, hia]
    | some t0 =>
      by_cases hi : tid = t0
      · subst hi
        simp [step, ht, hb]
      · simp [step, ht, hi, hia, hb]
  | setMaxAge d => exact ⟨hb, hia, rfl⟩
  | setInterval d => exact ⟨hb, hia, rfl⟩
  | tick t2 now removeOk =>
    by_cases hact : w.tActive t2 = true
    · have hne : t2 ≠ tid := fun he => by rw [he] at hact; rw [hact] at hia; cases hia
      simp [step, hact, hb, hia, sweepsFrom, List.countP_cons, hne]
    · simp [step, hact, hb, hia]
  | collectCall now removeOk =>
    simp [step, hb, hia, sweepsFrom, List.countP_cons]
  | taskExit gid =>
    by_cases hcnd : (gid < w.nextGid && w.tClosed (w.gTid gid)) = true <;>
      simp [step, hcnd, hb, hia]

/-- A deactivated (allocated) ticker stays deactivated and triggers no
further sweeps over any event sequence. -/
theorem inactive_run (w : World) (tid : Nat) (evs : List Event)
    (hb : tid < w.nextTid) (hia : w.tActive tid = false) :
    tid < (run w evs).nextTid ∧ (run w evs).tActive tid = false ∧
      sweepsFrom tid (run w evs).log = sweepsFrom tid w.log := by
  induction evs generalizing w with
  | nil => exact ⟨hb, hia, rfl⟩
  | cons e es ih =>
    obtain ⟨h1, h2, h3⟩ := inactive_step w tid e hb hia
    obtain ⟨g1, g2, g3⟩ := ih (step w e) h1 h2
    exact ⟨g1, g2, g3.trans h3⟩

/-- After a successful listing, the attempts and survivors of `collect` are
the `sweep` results, characterised by `sweep_snd` and `sweep_fst`. -/
theorem collect_ok_spec (gc : GC) (d : Dir) (now : Int) (removeOk : String → Bool)
    (h : d.listErr = none) :
    (collect gc d now removeOk).attempted =
      (d.entries.filter (eligible gc.maxAge now)).map FileInfo.name ∧
    (collect gc d now removeOk).fsAfter.entries =
      d.entries.filter (fun fi => !(eligible gc.maxAge now fi && removeOk fi.name)) := by
  unfold collect
  rw [h]
  exact ⟨sweep_snd gc.maxAge now removeOk d.entries,
    sweep_fst gc.maxAge now removeOk d.entries⟩

/-- C1: on a successful listing, `Collect` attempts deletion of exactly the
entries that are not directories, whose name starts with `session_`, and
whose age against the single per-sweep timestamp `now` strictly exceeds
`maxAge`; every entry not satisfying that conjunction — in particular an
entry aged exactly `maxAge` — survives the sweep. -/
theorem C1_collect_deletes_exactly_eligible (gc : GC) (d : Dir) (now : Int)
    (removeOk : String → Bool) (h : d.listErr = none) :
    (collect gc d now removeOk).attempted =
      (d.entries.filter (eligible gc.maxAge now)).map FileInfo.name ∧
    (∀ fi ∈ d.entries, eligible gc.maxAge now fi = false →
       fi ∈ (collect gc d now removeOk).fsAfter.entries) ∧
    (∀ fi ∈ d.entries, now - fi.modTime = gc.maxAge →
       fi ∈ (collect gc d now removeOk).fsAfter.entries) := by
  obtain ⟨hatt, hfs⟩ := collect_ok_spec gc d now removeOk h
  refine ⟨hatt, ?_, ?_⟩
  · intro fi hm he
    rw [hfs]
    exact List.mem_filter.mpr ⟨hm, by simp [he]⟩
  · intro fi hm hage
    rw [hfs]
    exact List.mem_filter.mpr ⟨hm, by simp [eligible, hage]⟩

/-- C1 witness: a seven-day-and-one-nanosecond-old `session_old` is attempted,
a fresh `session_new` and one aged exactly `maxAge` survive. -/
theorem C1_witness :
    (Dir.mk [FileInfo.mk "session_old" FileKind.regular 0,
      FileInfo.mk "session_new" FileKind.regular (DefaultMaxAge + 1),
      FileInfo.mk "session_edge" FileKind.regular 1] none).listErr = none ∧
    (collect (New "d") (Dir.mk [FileInfo.mk "session_old" FileKind.regular 0,
        FileInfo.mk "session_new" FileKind.regular (DefaultMaxAge + 1),
        FileInfo.mk "session_edge" FileKind.regular 1] none)
      (DefaultMaxAge + 1) (fun _ => true)).attempted = ["session_old"] := by
  refine ⟨rfl, ?_⟩
  rw [(C1_collect_deletes_exactly_eligible (New "d") _ (DefaultMaxAge + 1)
    (fun _ => true) rfl).1]
  decide

/-- C2: `Collect` returns exactly the error of the open/list phase; which
removals succeed affects neither the returned error nor the set of entries
considered for removal — after a successful listing it always returns nil. -/
theorem C2_collect_error_only_from_listing (gc : GC) (d : Dir) (now : Int)
    (ok1 ok2 : String → Bool) :
    (collect gc d now ok1).err = d.listErr ∧
    (collect gc d now ok1).err = (collect gc d now ok2).err ∧
    (collect gc d now ok1).attempted = (collect gc d now ok2).attempted := by
  refine ⟨collect_err gc d now ok1, ?_, ?_⟩
  · rw [collect_err gc d now ok1, collect_err gc d now ok2]
  · cases hd : d.listErr with
    | some e => unfold collect; rw [hd]
    | none =>
      rw [(collect_ok_spec gc d now ok1 hd).1, (collect_ok_spec gc d now ok2 hd).1]

/-- C3 counterexample: a symbolic link (not a regular file, not a directory)
named `session_link` and older than `maxAge` is deleted by `Collect`: the
claim that only regular files are ever deleted is false on the code, which
skips directories only. -/
theorem C3_counterexample_symlink_deleted :
    (FileInfo.mk "session_link" FileKind.symlink 0).kind ≠ FileKind.dir ∧
    (FileInfo.mk "session_link" FileKind.symlink 0).kind ≠ FileKind.regular ∧
    (collect (New "d") (Dir.mk [FileInfo.mk "session_link" FileKind.symlink 0] none)
      (DefaultMaxAge + 1) (fun _ => true)).attempted = ["session_link"] ∧
    (collect (New "d") (Dir.mk [FileInfo.mk "session_link" FileKind.symlink 0] none)
      (DefaultMaxAge + 1) (fun _ => true)).fsAfter.entries = [] := by
  exact ⟨by decide, by decide, by decide, by decide⟩

/-- C3 amended: `Collect` never inspects or deletes a subdirectory (a
directory entry is never eligible and always survives), but any
non-directory entry — regular file, symlink or other special entry — whose
name matches and whose age exceeds `maxAge` has its deletion attempted. -/
theorem C3_amended_skips_only_directories (gc : GC) (d : Dir) (now : Int)
    (removeOk : String → Bool) (h : d.listErr = none) :
    (∀ fi ∈ d.entries, fi.kind = FileKind.dir →
       eligible gc.maxAge now fi = false ∧
       fi ∈ (collect gc d now removeOk).fsAfter.entries) ∧
    (∀ fi ∈ d.entries, fi.kind ≠ FileKind.dir →
       stringHasPre "session_" fi.name = true → gc.maxAge < now - fi.modTime →
       fi.name ∈ (collect gc d now removeOk).attempted) := by
  obtain ⟨hatt, hfs⟩ := collect_ok_spec gc d now removeOk h
  constructor
  · intro fi hm hk
    have he : eligible gc.maxAge now fi = false := by
      simp [eligible, FileInfo.isDir, hk]
    exact ⟨he, by rw [hfs]; exact List.mem_filter.mpr ⟨hm, by simp [he]⟩⟩
  · intro fi hm hk hp hage
    have he : eligible gc.maxAge now fi = true := by
      simp [eligible, FileInfo.isDir, hk, hp, hage]
    rw [hatt]
    exact List.mem_map.mpr ⟨fi, List.mem_filter.mpr ⟨hm, he⟩, rfl⟩

/-- C3 amended witness: a subdirectory named `session_dir`, however old,
survives; the old symlink `session_link` is attempted. -/
theorem C3_amended_witness :
    (Dir.mk [FileInfo.mk "session_dir" FileKind.dir 0,
      FileInfo.mk "session_link" FileKind.symlink 0] none).listErr = none ∧
    FileInfo.mk "session_dir" FileKind.dir 0 ∈
      (collect (New "d") (Dir.mk [FileInfo.mk "session_dir" FileKind.dir 0,
          FileInfo.mk "session_link" FileKind.symlink 0] none)
        (DefaultMaxAge + 1) (fun _ => true)).fsAfter.entries ∧
    "session_link" ∈
      (collect (New "d") (Dir.mk [FileInfo.mk "session_dir" FileKind.dir 0,
          FileInfo.mk "session_link" FileKind.symlink 0] none)
        (DefaultMaxAge + 1) (fun _ => true)).attempted := by
  have h := C3_amended_skips_only_directories (New "d")
    (Dir.mk [FileInfo.mk "session_dir" FileKind.dir 0,
      FileInfo.mk "session_link" FileKind.symlink 0] none)
    (DefaultMaxAge + 1) (fun _ => true) rfl
  refine ⟨rfl, ?_, ?_⟩
  · exact (h.1 (FileInfo.mk "session_dir" FileKind.dir 0) (by decide) rfl).2
  · exact h.2 (FileInfo.mk "session_link" FileKind.symlink 0) (by decide)
      (by decide) (by decide) (by decide)

/-- C6: if the open/list phase fails, `Collect` returns that error with the
directory exactly as it was and no removal attempted. -/
theorem C6_error_path_touches_nothing (gc : GC) (d : Dir) (now : Int)
    (removeOk : String → Bool) (e : DirError) (h : d.listErr = some e) :
    (collect gc d now removeOk).err = some e ∧
    (collect gc d now removeOk).fsAfter = d ∧
    (collect gc d now removeOk).attempted = [] := by
  unfold collect
  rw [h]
  exact ⟨rfl, rfl, rfl⟩

/-- C6 witness: on a directory whose open fails, nothing is touched. -/
theorem C6_witness :
    (Dir.mk [FileInfo.mk "session_old" FileKind.regular 0]
      (some DirError.openFailed)).listErr = some DirError.openFailed ∧
    (collect (New "d") (Dir.mk [FileInfo.mk "session_old" FileKind.regular 0]
        (some DirError.openFailed)) (DefaultMaxAge + 1) (fun _ => true)).fsAfter =
      Dir.mk [FileInfo.mk "session_old" FileKind.regular 0] (some DirError.openFailed) := by
  exact ⟨rfl, (C6_error_path_touches_nothing (New "d") _ (DefaultMaxAge + 1)
    (fun _ => true) DirError.openFailed rfl).2.1⟩

/-- C9: `New(dir)` is a pure struct literal (its embedding is a total Lean
function, no I/O or effects): stopped state (no ticker), the given directory,
`maxAge` of 7 days = 168 hours and `interval` of 1 hour. -/
theorem C9_new_defaults (dir : String) :
    (New dir).dir = dir ∧
    (New dir).ticker = none ∧
    (New dir).maxAge = DefaultMaxAge ∧
    (New dir).interval = DefaultInterval ∧
    DefaultMaxAge = 7 * 24 * Hour ∧
    DefaultMaxAge = 168 * Hour ∧
    DefaultInterval = 1 * Hour := by
  refine ⟨rfl, rfl, rfl, rfl, rfl, by decide, rfl⟩

/-- C10: `Collect` writes no field of the collector: whether it returns an
error or nil, the struct it hands back is the receiver itself, and in the
lifecycle model a manual sweep changes neither the `GC` struct (directory,
`maxAge`, `interval`, schedule handle) nor any ticker or goroutine. -/
theorem C10_collect_frame (gc : GC) (d : Dir) (now : Int) (removeOk : String → Bool)
    (w : World) :
    (collect gc d now removeOk).gcAfter = gc ∧
    (step w (Event.collectCall now removeOk)).gc = w.gc ∧
    (step w (Event.collectCall now removeOk)).nextTid = w.nextTid ∧
    (step w (Event.collectCall now removeOk)).tPeriod = w.tPeriod ∧
    (step w (Event.collectCall now removeOk)).tActive = w.tActive ∧
    (step w (Event.collectCall now removeOk)).tClosed = w.tClosed ∧
    (step w (Event.collectCall now removeOk)).nextGid = w.nextGid ∧
    (step w (Event.collectCall now removeOk)).gDone = w.gDone := by
  refine ⟨collect_gcAfter gc d now removeOk, ?_, rfl, rfl, rfl, rfl, rfl, rfl⟩
  simp [step, collect_gcAfter]

/-- C4 counterexample: start then stop the collector; the handle is cleared,
but because `Ticker.Stop` never closes the ticker channel, the background
goroutine ranging over it can never exit: there is no event sequence after
which any goroutine has terminated.  The claim that `Stop` signals the
background task so that it terminates rather than remaining blocked forever
is false on the code. -/
theorem C4_counterexample_task_never_terminates :
    (run (init "sessions") [Event.start]).gc.ticker = some 0 ∧
    (run (init "sessions") [Event.start, Event.stop]).gc.ticker = none ∧
    ¬ ∃ evs : List Event, ∃ gid : Nat,
        (run (run (init "sessions") [Event.start, Event.stop]) evs).gDone gid = true := by
  refine ⟨rfl, rfl, ?_⟩
  rintro ⟨evs, gid, hdone⟩
  have hall := (sane_run (run (init "sessions") [Event.start, Event.stop]) evs
    (fun i => rfl) (fun g => rfl)).2 gid
  rw [hall] at hdone
  cases hdone

/-- C4 amended: after `Stop` returns on a running collector the schedule
handle is cleared, the ticker is stopped, and no further automatic sweep is
ever initiated by it under any continuation; however the background task is
never signaled to terminate — its channel is never closed and the goroutine
remains blocked on it forever, under every continuation. -/
theorem C4_amended_stop_halts_schedule_but_leaks_task (w : World) (tid : Nat)
    (hrun : w.gc.ticker = some tid) (hb : tid < w.nextTid)
    (hc : noClosed w) (ha : allAlive w) :
    (step w Event.stop).gc.ticker = none ∧
    (step w Event.stop).tActive tid = false ∧
    (∀ evs : List Event,
       sweepsFrom tid (run (step w Event.stop) evs).log =
         sweepsFrom tid (step w Event.stop).log) ∧
    (∀ evs : List Event, ∀ gid : Nat,
       (run (step w Event.stop) evs).gDone gid = false) := by
  have h1 : (step w Event.stop).gc.ticker = none := by simp [step, hrun]
  have h2 : (step w Event.stop).tActive tid = false := by simp [step, hrun]
  have hb2 : tid < (step w Event.stop).nextTid := by simpa [step, hrun] using hb
  refine ⟨h1, h2, ?_, ?_⟩
  · intro evs
    exact (inactive_run (step w Event.stop) tid evs hb2 h2).2.2
  · intro evs gid
    exact (sane_run (step w Event.stop) evs
      (sane_step w Event.stop hc ha).1 (sane_step w Event.stop hc ha).2).2 gid

/-- C4 amended witness: start a fresh collector, stop it; the handle is
cleared, no sweep comes from ticker 0 after a pending tick, and the
goroutine has not exited even after its only chance to. -/
theorem C4_amended_witness :
    (step (run (init "d") [Event.start]) Event.stop).gc.ticker = none ∧
    sweepsFrom 0 (run (step (run (init "d") [Event.start]) Event.stop)
      [Event.tick 0 0 (fun _ => true)]).log = 0 ∧
    (run (step (run (init "d") [Event.start]) Event.stop)
      [Event.tick 0 0 (fun _ => true), Event.taskExit 0]).gDone 0 = false := by
  have h := C4_amended_stop_halts_schedule_but_leaks_task
    (run (init "d") [Event.start]) 0 rfl (by decide) (fun i => rfl) (fun g => rfl)
  refine ⟨h.1, ?_, h.2.2.2 [Event.tick 0 0 (fun _ => true), Event.taskExit 0] 0⟩
  rw [h.2.2.1 [Event.tick 0 0 (fun _ => true)]]
  rfl

/-- C5: in any world satisfying the handle invariant — which holds at
construction and is preserved by every event sequence — at most one ticker
is active; `Start` on a running collector and `Stop` on a stopped one
return the world unchanged. -/
theorem C5_at_most_one_schedule_handle :
    (∀ dir : String, handleInv (init dir)) ∧
    (∀ w : World, ∀ evs : List Event, handleInv w → handleInv (run w evs)) ∧
    (∀ w : World, handleInv w → ∀ i j : Nat,
       w.tActive i = true → w.tActive j = true → i = j) ∧
    (∀ w : World, w.gc.ticker.isSome = true → step w Event.start = w) ∧
    (∀ w : World, w.gc.ticker = none → step w Event.stop = w) := by
  refine ⟨?_, ?_, ?_, ?_, ?_⟩
  · intro dir
    exact fun i => rfl
  · exact fun w evs h => handleInv_run w evs h
  · intro w h i j hi hj
    cases ht : w.gc.ticker with
    | none =>
      simp only [handleInv, ht] at h
      rw [h i] at hi
      cases hi
    | some tid =>
      simp only [handleInv, ht] at h
      rw [(h.2 i).mp hi, (h.2 j).mp hj]
  · intro w hs
    cases ht : w.gc.ticker with
    | none => rw [ht] at hs; cases hs
    | some tid => simp [step, ht]
  · intro w hn
    simp [step, hn]

/-- C5 witness: the invariant survives a restart cycle, and a second `Start`
on a running collector is the identity. -/
theorem C5_witness :
    handleInv (run (init "d") [Event.start, Event.stop, Event.start]) ∧
    step (run (init "d") [Event.start]) Event.start = run (init "d") [Event.start] :=
  ⟨C5_at_most_one_schedule_handle.2.1 (init "d")
      [Event.start, Event.stop, Event.start]
      (C5_at_most_one_schedule_handle.1 "d"),
    C5_at_most_one_schedule_handle.2.2.2.1 (run (init "d") [Event.start]) rfl⟩

/-- C7: setting `maxAge` takes effect at once and without a restart: the
schedule handle, tickers and periods are untouched, and any sweep — manual
or from an active ticker — run in a world reads the `maxAge` stored in the
struct at that moment (in particular the newly set value). -/
theorem C7_maxage_effective_immediately (w : World) (d now : Int)
    (removeOk : String → Bool) :
    (step w (Event.setMaxAge d)).gc.maxAge = d ∧
    (step w (Event.setMaxAge d)).gc.ticker = w.gc.ticker ∧
    (step w (Event.setMaxAge d)).tActive = w.tActive ∧
    (step w (Event.setMaxAge d)).tPeriod = w.tPeriod ∧
    (∀ w2 : World, (step w2 (Event.collectCall now removeOk)).log =
       { usedMaxAge := w2.gc.maxAge, fromTick := none } :: w2.log) ∧
    (step (step w (Event.setMaxAge d)) (Event.collectCall now removeOk)).log =
      { usedMaxAge := d, fromTick := none } :: (step w (Event.setMaxAge d)).log ∧
    (∀ tid : Nat, (step w (Event.setMaxAge d)).tActive tid = true →
       (step (step w (Event.setMaxAge d)) (Event.tick tid now removeOk)).log =
         { usedMaxAge := d, fromTick := some tid } :: (step w (Event.setMaxAge d)).log) := by
  refine ⟨rfl, rfl, rfl, rfl, fun w2 => rfl, rfl, ?_⟩
  intro tid hact
  rw [step_tick_of_active (step w (Event.setMaxAge d)) tid now removeOk hact]
  rfl

/-- C7 witness: start, set `maxAge` to 5; the very next tick sweeps with 5. -/
theorem C7_witness :
    (step (run (init "d") [Event.start]) (Event.setMaxAge 5)).gc.maxAge = 5 ∧
    (step (step (run (init "d") [Event.start]) (Event.setMaxAge 5))
        (Event.tick 0 0 (fun _ => true))).log =
      [{ usedMaxAge := 5, fromTick := some 0 }] := by
  have h := C7_maxage_effective_immediately (run (init "d") [Event.start]) 5 0
    (fun _ => true)
  refine ⟨h.1, ?_⟩
  rw [h.2.2.2.2.2.2 0 rfl]
  rfl

/-- C8: the period of the schedule is the `interval` read when `Start` ran:
`Start` stamps the current `interval` onto the new ticker; setting `interval`
while running changes no existing ticker period, handle or activity, only
the stored field, and the ticker created by the next stop/start cycle
carries the new value. -/
theorem C8_interval_takes_effect_at_next_start (w : World) (tid : Nat) (dnew : Int)
    (h : w.gc.ticker = some tid) :
    (∀ w2 : World, w2.gc.ticker = none →
       (step w2 Event.start).gc.ticker = some w2.nextTid ∧
       (step w2 Event.start).tPeriod w2.nextTid = w2.gc.interval) ∧
    (step w (Event.setInterval dnew)).tPeriod = w.tPeriod ∧
    (step w (Event.setInterval dnew)).gc.ticker = some tid ∧
    (step w (Event.setInterval dnew)).tActive = w.tActive ∧
    (step w (Event.setInterval dnew)).gc.interval = dnew ∧
    (step (step (step w (Event.setInterval dnew)) Event.stop) Event.start).tPeriod
        ((step (step w (Event.setInterval dnew)) Event.stop).nextTid) = dnew := by
  refine ⟨?_, ?_, ?_, ?_, ?_, ?_⟩
  · intro w2 h2
    rw [step_start_of_none w2 h2]
    simp
  · rfl
  · exact h
  · rfl
  · show (GC.Interval w.gc dnew).interval = dnew
    rfl
  · rw [step_stop_of_some (step w (Event.setInterval dnew)) tid h,
      step_start_of_none _ rfl]
    simp
    rfl

/-- C8 witness: while running with the default period, set `interval` to 42;
ticker 0 keeps its period, and the ticker of the next start cycle gets 42. -/
theorem C8_witness :
    (step (run (init "d") [Event.start]) (Event.setInterval 42)).tPeriod 0 =
      (run (init "d") [Event.start]).tPeriod 0 ∧
    (step (step (step (run (init "d") [Event.start]) (Event.setInterval 42))
        Event.stop) Event.start).tPeriod 1 = 42 := by
  have h := C8_interval_takes_effect_at_next_start (run (init "d") [Event.start])
    0 42 rfl
  exact ⟨congrFun h.2.1 0, h.2.2.2.2.2⟩

end Fsgc
